import Mathlib

/-!
Verification of the `rust_http` request parser against its specification.

The repository holds two request-parsing pipelines:
  * `src/models.rs`       — container-based parser (`Models` namespace below);
  * `src/parsing/request_parser.rs` — map-based parser (`Parsing` namespace).
Pure string helpers (splitting, trimming, decimal parsing) shared by both
files are embedded once in the `RustHttp` root namespace.  Strings are
modelled by Lean `String` (a wrapper around `List Char`), Rust `u32`/`usize`
by `Nat` with the explicit bound checks the Rust integer parsers perform,
and fallible Rust functions returning `Result<T, String>` by
`Except String T`.  A Rust `panic!` is modelled as the distinguished value
`none` of an `Option` layer, separate from recoverable `Except` errors.
-/

namespace RustHttp

/-- Whitespace as recognized by Rust `char::is_whitespace` (the Unicode
`White_Space` property). -/
def isRustWhitespace (c : Char) : Bool :=
  ('\t' ≤ c && c ≤ '\r') || c = ' ' || c = '\u0085' || c = '\u00a0' ||
  c = '\u1680' || ('\u2000' ≤ c && c ≤ '\u200a') || c = '\u2028' ||
  c = '\u2029' || c = '\u202f' || c = '\u205f' || c = '\u3000'

/-- Rust `str::trim`: drop whitespace from both ends of a character list. -/
def trimList (l : List Char) : List Char :=
  ((l.dropWhile isRustWhitespace).reverse.dropWhile isRustWhitespace).reverse

/-- Rust `str::trim` on a `String`. -/
def trim (s : String) : String :=
  String.mk (trimList s.data)

/-- Helper for `splitOnChar`: first chunk of `l` before a separator `c`,
paired with the list of the remaining chunks. -/
def splitAux (c : Char) : List Char → List Char × List (List Char)
  | [] => ([], [])
  | x :: xs =>
    let p := splitAux c xs
    if x = c then ([], p.1 :: p.2) else (x :: p.1, p.2)

/-- Rust `str::split(c)`: every maximal chunk between separators, keeping
empty chunks (`"".split(c) == [""]`, `":".split(':') == ["", ""]`). -/
def splitOnChar (c : Char) (l : List Char) : List (List Char) :=
  (splitAux c l).1 :: (splitAux c l).2

/-- Rust `str::split` lifted to `String`. -/
def splitOnStr (c : Char) (s : String) : List String :=
  (splitOnChar c s.data).map String.mk

/-- Split a character list at the first occurrence of `c`, if any. -/
def splitFirstAux (c : Char) : List Char → Option (List Char × List Char)
  | [] => none
  | x :: xs =>
    if x = c then some ([], xs)
    else (splitFirstAux c xs).map (fun p => (x :: p.1, p.2))

/-- Rust `str::splitn(2, c)`: at most two chunks, split at the first
occurrence of `c` only. -/
def rustSplitn2 (c : Char) (s : String) : List String :=
  match splitFirstAux c s.data with
  | none => [s]
  | some (a, b) => [String.mk a, String.mk b]

/-- Numeric value of an ASCII decimal digit. -/
def digitVal (c : Char) : Option Nat :=
  if '0' ≤ c ∧ c ≤ '9' then some (c.toNat - '0'.toNat) else none

/-- Digit-by-digit accumulation used by Rust `from_str_radix`, including its
per-step overflow check against `bound` (2^32 for `u32`, 2^64 for `usize`). -/
def parseDigitsE (bound : Nat) : Nat → List Char → Except String Nat
  | acc, [] => .ok acc
  | acc, c :: cs =>
    match digitVal c with
    | none => .error "invalid digit found in string"
    | some d =>
      if bound ≤ 10 * acc + d then .error "number too large to fit in target type"
      else parseDigitsE bound (10 * acc + d) cs

/-- Rust `str::parse::<uN>` with modulus `bound`: optional leading `+`, one
or more decimal digits, value below `bound`. -/
def rustParseNat (bound : Nat) (s : String) : Except String Nat :=
  match s.data with
  | [] => .error "cannot parse integer from empty string"
  | c :: cs =>
    if c = '+' then
      match cs with
      | [] => .error "invalid digit found in string"
      | _ => parseDigitsE bound 0 cs
    else parseDigitsE bound 0 (c :: cs)

/-- The exclusive upper bound of `u32`. -/
def u32Bound : Nat := 4294967296

/-- The exclusive upper bound of a 64-bit `usize`. -/
def usizeBound : Nat := 18446744073709551616

/-- ASCII decimal digit for `d < 10` (used to render `u32` values). -/
def digitChar : Nat → Char
  | 0 => '0' | 1 => '1' | 2 => '2' | 3 => '3' | 4 => '4'
  | 5 => '5' | 6 => '6' | 7 => '7' | 8 => '8' | 9 => '9'
  | _ => '*'

/-- Decimal rendering of a natural number, as Rust `Display` for `u32`. -/
def natRenderList (n : Nat) : List Char :=
  if n = 0 then ['0'] else ((Nat.digits 10 n).reverse.map digitChar)

/-- Decimal rendering as a `String`. -/
def natRender (n : Nat) : String :=
  String.mk (natRenderList n)

/-- Structure `Host` of `src/models.rs`: a hostname and a port (`u32`). -/
structure Host where
  hostname : String
  port : Nat
deriving DecidableEq, Repr

/-- Rendering `impl fmt::Display for Host` (src/models.rs lines 11-15):
`write!(f, "{}:{}", self.hostname, self.port)`. -/
def hostRender (h : Host) : String :=
  String.mk (h.hostname.data ++ ':' :: natRenderList h.port)

/-- Function `parse_host_from_wire` (src/models.rs lines 719-739): split on `:`, at
most one separator, port defaults to 80, otherwise must parse as `u32`. -/
def parse_host_from_wire (content : String) : Except String Host :=
  match splitOnStr ':' content with
  | [h] => .ok ⟨h, 80⟩
  | [h, p] =>
    match rustParseNat u32Bound p with
    | .ok n => .ok ⟨h, n⟩
    | .error _ => .error ("Failed to parse port: " ++ p)
  | _ => .error "Expected hostname:port or hostname"

/-- Enum `Method` (src/models.rs lines 17-27).  Note the source spells the first
variant `OPTION`, without the final `S`. -/
inductive Method where
  | OPTION | GET | POST | PUT | DELETE | TRACE | CONNECT
  | EXTENSION (s : String)
deriving DecidableEq, Repr

/-- Function `is_valid_extension_method` (src/models.rs lines 760-762): every
character is ASCII alphabetic. -/
def is_valid_extension_method (content : String) : Bool :=
  content.data.all (fun c => ('A' ≤ c && c ≤ 'Z') || ('a' ≤ c && c ≤ 'z'))

/-- Function `parse_method_from_wire` (src/models.rs lines 741-758, identical in
src/parsing/request_parser.rs lines 122-139): match the seven literals,
otherwise accept any all-alphabetic token as an extension method. -/
def parse_method_from_wire (content : String) : Except String Method :=
  if content = "OPTION" then .ok .OPTION
  else if content = "GET" then .ok .GET
  else if content = "POST" then .ok .POST
  else if content = "PUT" then .ok .PUT
  else if content = "DELETE" then .ok .DELETE
  else if content = "TRACE" then .ok .TRACE
  else if content = "CONNECT" then .ok .CONNECT
  else if is_valid_extension_method content then .ok (.EXTENSION content)
  else .error ("Invalid Extension Method: " ++ content)

/-- Struct `RequestLine` (src/models.rs lines 44-50): method, URI and
protocol version, `u32` fields modelled as `Nat`. -/
structure RequestLine where
  method : Method
  uri : String
  v_major : Nat
  v_minor : Nat
deriving DecidableEq, Repr

/-- Function `parse_version_numbers` (src/models.rs lines 694-717, identical
in src/parsing/request_parser.rs lines 75-98): split on `/` into exactly
`HTTP` and a version, then split the version on `.` into two `u32`s. -/
def parse_version_numbers (content : String) : Except String (Nat × Nat) :=
  match splitOnStr '/' content with
  | [p0, p1] =>
    if p0 = "HTTP" then
      match splitOnStr '.' p1 with
      | [v0, v1] => do
        let v_major ← rustParseNat u32Bound v0
        let v_minor ← rustParseNat u32Bound v1
        .ok (v_major, v_minor)
      | _ => .error ("Expecting version format: <u32>.<u32>. Instead, got: " ++ p1)
    else .error ("Unsupported version string: " ++ p0)
  | _ => .error "Expecting 2 values in version line: HTTP/Version"

/-- Function `parse_request_line` (src/models.rs lines 673-692, identical in
src/parsing/request_parser.rs lines 54-73): split on single spaces into
exactly three fields, then parse method and version. -/
def parse_request_line (value : String) : Except String RequestLine :=
  match splitOnStr ' ' value with
  | [m, u, v] => do
    let method ← parse_method_from_wire m
    let uri := u
    let (v_major, v_minor) ← parse_version_numbers v
    .ok ⟨method, uri, v_major, v_minor⟩
  | _ => .error "Expecting 3 values in request line: Method SP URI SP HTTP/Version"

/-- Model of `BufRead::read_line` over an in-memory stream: the first line
(including its `\n` terminator when present) and the rest of the stream.
At end of stream it returns the empty line, as `read_line` returning 0. -/
def readLine : List Char → List Char × List Char
  | [] => ([], [])
  | c :: cs =>
    if c = '\n' then ([c], cs)
    else
      let p := readLine cs
      (c :: p.1, p.2)

/-- Model of `HashMap::insert`: record the new value for the key, dropping
any previous entry for the same key (keys stay unique; a `HashMap` keeps no
order, so entries are kept most-recent-first). -/
def listInsert (k v : String) (m : List (String × String)) : List (String × String) :=
  (k, v) :: m.filter (fun p => p.1 ≠ k)

namespace Models

/-- Enum `RequestHeader` (src/models.rs lines 62-82). -/
inductive RequestHeader where
  | Accept | AcceptCharset | AcceptEncoding | AcceptLanguage | Authorization
  | Expect | From | Host | IfMatch | IfModifiedSince | IfNoneMatch | IfRange
  | IfUnmodifiedSince | MaxForwards | ProxyAuthorization | Range | Referer
  | TE | UserAgent
deriving DecidableEq, Repr

/-- Function `RequestHeader::from` (src/models.rs lines 221-245): the wire
names of the request table use canonical hyphenated spellings. -/
def RequestHeader.fromStr (key : String) : Option RequestHeader :=
  if key = "Accept" then some .Accept
  else if key = "Accept-Charset" then some .AcceptCharset
  else if key = "Accept-Encoding" then some .AcceptEncoding
  else if key = "Accept-Language" then some .AcceptLanguage
  else if key = "Authorization" then some .Authorization
  else if key = "Expect" then some .Expect
  else if key = "From" then some .From
  else if key = "Host" then some .Host
  else if key = "If-Match" then some .IfMatch
  else if key = "If-Modified-Since" then some .IfModifiedSince
  else if key = "If-None-Match" then some .IfNoneMatch
  else if key = "If-Range" then some .IfRange
  else if key = "If-Unmodified-Since" then some .IfUnmodifiedSince
  else if key = "Max-Forwards" then some .MaxForwards
  else if key = "Proxy-Authorization" then some .ProxyAuthorization
  else if key = "Range" then some .Range
  else if key = "Referer" then some .Referer
  else if key = "TE" then some .TE
  else if key = "User-Agent" then some .UserAgent
  else none

/-- Struct `RequestHeaders` (src/models.rs lines 84-105). -/
structure RequestHeaders where
  accept : Option String
  accept_charset : Option String
  accept_encoding : Option String
  accept_language : Option String
  authorization : Option String
  expect : Option String
  from_ : Option String
  host : Option Host
  if_match : Option String
  if_modified_since : Option String
  if_none_match : Option String
  if_range : Option String
  if_unmodified_since : Option String
  max_forwards : Option String
  proxy_authorization : Option String
  range : Option String
  referer : Option String
  te : Option String
  user_agent : Option String
deriving DecidableEq, Repr

/-- Function `RequestHeaders::new` (src/models.rs lines 108-130). -/
def RequestHeaders.new : RequestHeaders :=
  ⟨none, none, none, none, none, none, none, none, none, none,
   none, none, none, none, none, none, none, none, none⟩

/-- Function `RequestHeaders::insert` (src/models.rs lines 132-193): set the
slot of `key` to `value`; the `Host` slot further parses the value and
propagates its failure. -/
def RequestHeaders.insert (h : RequestHeaders) (key : RequestHeader)
    (value : String) : Except String RequestHeaders :=
  match key with
  | .Accept => .ok { h with accept := some value }
  | .AcceptCharset => .ok { h with accept_charset := some value }
  | .AcceptEncoding => .ok { h with accept_encoding := some value }
  | .AcceptLanguage => .ok { h with accept_language := some value }
  | .Authorization => .ok { h with authorization := some value }
  | .Expect => .ok { h with expect := some value }
  | .From => .ok { h with from_ := some value }
  | .Host =>
    match parse_host_from_wire value with
    | .ok hst => .ok { h with host := some hst }
    | .error e => .error e
  | .IfMatch => .ok { h with if_match := some value }
  | .IfModifiedSince => .ok { h with if_modified_since := some value }
  | .IfNoneMatch => .ok { h with if_none_match := some value }
  | .IfRange => .ok { h with if_range := some value }
  | .IfUnmodifiedSince => .ok { h with if_unmodified_since := some value }
  | .MaxForwards => .ok { h with max_forwards := some value }
  | .ProxyAuthorization => .ok { h with proxy_authorization := some value }
  | .Range => .ok { h with range := some value }
  | .Referer => .ok { h with referer := some value }
  | .TE => .ok { h with te := some value }
  | .UserAgent => .ok { h with user_agent := some value }

/-- Enum `GeneralHeader` (src/models.rs lines 247-257). -/
inductive GeneralHeader where
  | CacheControl | Connection | Date | Pragma | Trailer
  | TransferEncoding | Upgrade | Via | Warning
deriving DecidableEq, Repr

/-- Function `GeneralHeader::from` (src/models.rs lines 336-349).  The wire
names here are the bare variant names, without hyphens, exactly as in the
source (`"CacheControl"`, `"TransferEncoding"`). -/
def GeneralHeader.fromStr (key : String) : Option GeneralHeader :=
  if key = "CacheControl" then some .CacheControl
  else if key = "Connection" then some .Connection
  else if key = "Date" then some .Date
  else if key = "Pragma" then some .Pragma
  else if key = "Trailer" then some .Trailer
  else if key = "TransferEncoding" then some .TransferEncoding
  else if key = "Upgrade" then some .Upgrade
  else if key = "Via" then some .Via
  else if key = "Warning" then some .Warning
  else none

/-- Struct `GeneralHeaders` (src/models.rs lines 259-270). -/
structure GeneralHeaders where
  cache_control : Option String
  connection : Option String
  date : Option String
  pragma : Option String
  trailer : Option String
  transfer_encoding : Option String
  upgrade : Option String
  via : Option String
  warning : Option String
deriving DecidableEq, Repr

/-- Function `GeneralHeaders::new` (src/models.rs lines 272-285). -/
def GeneralHeaders.new : GeneralHeaders :=
  ⟨none, none, none, none, none, none, none, none, none⟩

/-- Function `GeneralHeaders::insert` (src/models.rs lines 287-318). -/
def GeneralHeaders.insert (h : GeneralHeaders) (key : GeneralHeader)
    (value : String) : Except String GeneralHeaders :=
  match key with
  | .CacheControl => .ok { h with cache_control := some value }
  | .Connection => .ok { h with connection := some value }
  | .Date => .ok { h with date := some value }
  | .Pragma => .ok { h with pragma := some value }
  | .Trailer => .ok { h with trailer := some value }
  | .TransferEncoding => .ok { h with transfer_encoding := some value }
  | .Upgrade => .ok { h with upgrade := some value }
  | .Via => .ok { h with via := some value }
  | .Warning => .ok { h with warning := some value }

/-- Enum `EntityHeader` (src/models.rs lines 352-364), with the open
`Extension` variant. -/
inductive EntityHeader where
  | Allow | ContentEncoding | ContentLanguages | ContentLength
  | ContentLocation | ContentMD5 | ContentRange | ContentType
  | Expires | LastModified
  | Extension (s : String)
deriving DecidableEq, Repr

/-- Function `EntityHeader::from` (src/models.rs lines 455-469): always
`Some`; unrecognized names become `Extension`.  As in `GeneralHeader`, the
recognized wire names are the bare variant names without hyphens
(`"ContentLength"`, not `"Content-Length"`), exactly as in the source. -/
def EntityHeader.fromStr (key : String) : Option EntityHeader :=
  some (
    if key = "Allow" then .Allow
    else if key = "ContentEncoding" then .ContentEncoding
    else if key = "ContentLanguages" then .ContentLanguages
    else if key = "ContentLength" then .ContentLength
    else if key = "ContentLocation" then .ContentLocation
    else if key = "ContentMD5" then .ContentMD5
    else if key = "ContentRange" then .ContentRange
    else if key = "ContentType" then .ContentType
    else if key = "Expires" then .Expires
    else if key = "LastModified" then .LastModified
    else .Extension key)

/-- Struct `EntityHeaders` (src/models.rs lines 366-379); `content_length`
is `Option<usize>` and `extensions` a `HashMap<String, String>`. -/
structure EntityHeaders where
  allow : Option String
  content_encoding : Option String
  content_languages : Option String
  content_length : Option Nat
  content_location : Option String
  content_md5 : Option String
  content_range : Option String
  content_type : Option String
  expires : Option String
  last_modified : Option String
  extensions : List (String × String)
deriving DecidableEq, Repr

/-- Function `EntityHeaders::new` (src/models.rs lines 382-396). -/
def EntityHeaders.new : EntityHeaders :=
  ⟨none, none, none, none, none, none, none, none, none, none, []⟩

/-- Function `EntityHeaders::insert` (src/models.rs lines 398-435): the
`ContentLength` slot parses the value as `usize` and propagates the parse
error; `Extension` inserts into the hash map. -/
def EntityHeaders.insert (h : EntityHeaders) (key : EntityHeader)
    (value : String) : Except String EntityHeaders :=
  match key with
  | .Allow => .ok { h with allow := some value }
  | .ContentEncoding => .ok { h with content_encoding := some value }
  | .ContentLanguages => .ok { h with content_languages := some value }
  | .ContentLength =>
    match rustParseNat usizeBound value with
    | .ok n => .ok { h with content_length := some n }
    | .error e => .error e
  | .ContentLocation => .ok { h with content_location := some value }
  | .ContentMD5 => .ok { h with content_md5 := some value }
  | .ContentRange => .ok { h with content_range := some value }
  | .ContentType => .ok { h with content_type := some value }
  | .Expires => .ok { h with expires := some value }
  | .LastModified => .ok { h with last_modified := some value }
  | .Extension s => .ok { h with extensions := listInsert s value h.extensions }

/-- Enum `ResponseHeader` (src/models.rs lines 472-482). -/
inductive ResponseHeader where
  | AcceptRanges | Age | ETag | Location | ProxyAuthenticate
  | RetryAfter | Server | Vary | WWWAuthenticate
deriving DecidableEq, Repr

/-- Struct `ResponseHeaders` (src/models.rs lines 484-495). -/
structure ResponseHeaders where
  accept_ranges : Option String
  age : Option String
  etag : Option String
  location : Option String
  proxy_authenticate : Option String
  retry_after : Option String
  server : Option String
  vary : Option String
  www_authenticate : Option String
deriving DecidableEq, Repr

/-- Function `ResponseHeaders::new` (src/models.rs lines 497-510). -/
def ResponseHeaders.new : ResponseHeaders :=
  ⟨none, none, none, none, none, none, none, none, none⟩

/-- Function `ResponseHeaders::insert` (src/models.rs lines 512-544). -/
def ResponseHeaders.insert (h : ResponseHeaders) (key : ResponseHeader)
    (value : String) : Except String ResponseHeaders :=
  match key with
  | .AcceptRanges => .ok { h with accept_ranges := some value }
  | .Age => .ok { h with age := some value }
  | .ETag => .ok { h with etag := some value }
  | .Location => .ok { h with location := some value }
  | .ProxyAuthenticate => .ok { h with proxy_authenticate := some value }
  | .RetryAfter => .ok { h with retry_after := some value }
  | .Server => .ok { h with server := some value }
  | .Vary => .ok { h with vary := some value }
  | .WWWAuthenticate => .ok { h with www_authenticate := some value }


/-- Result of the classification chain of `parse_headers_from_reader`
(src/models.rs lines 626-634): which table claimed the header name, or the
`unclassified` outcome guarded by the `panic!` branch. -/
inductive HeaderClass where
  | req (r : RequestHeader)
  | gen (g : GeneralHeader)
  | ent (e : EntityHeader)
  | unclassified
deriving DecidableEq, Repr

/-- Classification chain of src/models.rs lines 626-634: try the Request
table, then the General table, then the Entity table, in that order. -/
def classifyHeader (key : String) : HeaderClass :=
  match RequestHeader.fromStr key with
  | some r => .req r
  | none =>
    match GeneralHeader.fromStr key with
    | some g => .gen g
    | none =>
      match EntityHeader.fromStr key with
      | some e => .ent e
      | none => .unclassified

/-- Insertion dispatch of the header loop body (src/models.rs lines
626-634): insert into the container of the matching table; the
`unclassified` case is the `panic!` branch, modelled as `none`. -/
def classifyInsert (key value : String) (rh : RequestHeaders)
    (gh : GeneralHeaders) (eh : EntityHeaders) :
    Option (Except String (RequestHeaders × GeneralHeaders × EntityHeaders)) :=
  match classifyHeader key with
  | .req r => some ((rh.insert r value).map (fun rh2 => (rh2, gh, eh)))
  | .gen g => some ((gh.insert g value).map (fun gh2 => (rh, gh2, eh)))
  | .ent e => some ((eh.insert e value).map (fun eh2 => (rh, gh, eh2)))
  | .unclassified => none

/-- Body of the header loop of `parse_headers_from_reader` (src/models.rs
lines 617-634) for one non-empty, already trimmed header line: split on the
first `:` (requiring two parts), keep the name part verbatim, trim the value
part, then classify and insert. -/
def processHeaderLine (header : String) (rh : RequestHeaders)
    (gh : GeneralHeaders) (eh : EntityHeaders) :
    Option (Except String (RequestHeaders × GeneralHeaders × EntityHeaders)) :=
  match rustSplitn2 ':' header with
  | [key, value0] => classifyInsert key (trim value0) rh gh eh
  | _ => some (.error "Expecting 'key: value' in header")

/-- Loop of `parse_headers_from_reader` (src/models.rs lines 608-635): read
a line, trim it, stop on an empty line (also reached at end of stream),
otherwise process it and continue.  `fuel` bounds the recursion; the
callers pass `stream.length + 1`, which a loop that consumes at least one
character per iteration never exhausts. -/
def parseHeadersLoopF :
    Nat → RequestHeaders → GeneralHeaders → EntityHeaders → List Char →
    Option (Except String (RequestHeaders × GeneralHeaders × EntityHeaders × List Char))
  | 0, _, _, _, _ => some (.error "header loop out of fuel")
  | fuel + 1, rh, gh, eh, s =>
    let p := readLine s
    let header := trim (String.mk p.1)
    if header = "" then some (.ok (rh, gh, eh, p.2))
    else
      match processHeaderLine header rh gh eh with
      | none => none
      | some (.error e) => some (.error e)
      | some (.ok (rh2, gh2, eh2)) => parseHeadersLoopF fuel rh2 gh2 eh2 p.2

/-- Struct `HttpRequest` (src/models.rs lines 577-584). -/
structure HttpRequest where
  request_line : RequestLine
  request_headers : RequestHeaders
  general_headers : GeneralHeaders
  entity_headers : EntityHeaders
  body : Option String
deriving DecidableEq, Repr

/-- Function `parse_http_request` (src/models.rs lines 653-671), composed
with `parse_request_line_from_reader` (lines 586-598),
`parse_headers_from_reader` (lines 600-638) and `parse_body_from_reader`
(lines 640-651), over an in-memory stream.  The outer `Option` is `none`
exactly when the `panic!` branch of the header loop would run; a `some`
carries the `Result` value the Rust function returns.  The body is read
whenever a content length was recorded, taking that many characters. -/
def parse_http_request (s : String) : Option (Except String HttpRequest) :=
  let p := readLine s.data
  match parse_request_line (trim (String.mk p.1)) with
  | .error e => some (.error e)
  | .ok rl =>
    match parseHeadersLoopF (p.2.length + 1) RequestHeaders.new GeneralHeaders.new
        EntityHeaders.new p.2 with
    | none => none
    | some (.error e) => some (.error e)
    | some (.ok (rh, gh, eh, rest)) =>
      let body := match eh.content_length with
        | some n => some (String.mk (rest.take n))
        | none => none
      some (.ok ⟨rl, rh, gh, eh, body⟩)

/-- Projection: the entity extension bucket of a successful run. -/
def extensionsOf : Option (Except String HttpRequest) → Option (List (String × String))
  | some (.ok r) => some r.entity_headers.extensions
  | _ => none

/-- Projection: the parsed `Host` slot of a successful run. -/
def hostOf : Option (Except String HttpRequest) → Option (Option Host)
  | some (.ok r) => some r.request_headers.host
  | _ => none

/-- Test for a run that returned `Ok` (neither an error nor a panic). -/
def okSucceeds : Option (Except String HttpRequest) → Bool
  | some (.ok _) => true
  | _ => false

end Models

namespace Parsing

/-- Enum `Header` as used by src/parsing/request_parser.rs lines 157-168:
its declaration is imported from `crate::models` but absent from src/, so
the constructors are taken from the construction sites in that file. -/
inductive Header where
  | host (h : Host)
  | userAgent (s : String)
  | accept (s : String)
  | contentType (s : String)
  | contentLength (n : Nat)
  | other (key value : String)
deriving DecidableEq, Repr

/-- Modelled from the spec: `Header::to_key_value` is called at
src/parsing/request_parser.rs line 29 but its definition is not under src/
(src/models.rs does not define `Header`).  Following the spec (§3, §4.4),
each header maps to its canonical wire name paired with its stored value,
an extension header keeping its name and value verbatim. -/
def Header.to_key_value : Header → String × String
  | .host h => ("Host", hostRender h)
  | .userAgent s => ("User-Agent", s)
  | .accept s => ("Accept", s)
  | .contentType s => ("Content-Type", s)
  | .contentLength n => ("Content-Length", natRender n)
  | .other key value => (key, value)

/-- Function `parse_header_from_key_value` (src/parsing/request_parser.rs
lines 157-169): five recognized names, hyphenated wire spellings; `Host`
and `Content-Length` values are further parsed, propagating failure;
everything else becomes `Other`. -/
def parse_header_from_key_value (key value : String) : Except String Header :=
  if key = "Host" then
    match parse_host_from_wire value with
    | .ok h => .ok (.host h)
    | .error e => .error e
  else if key = "User-Agent" then .ok (.userAgent value)
  else if key = "Accept" then .ok (.accept value)
  else if key = "Content-Type" then .ok (.contentType value)
  else if key = "Content-Length" then
    match rustParseNat usizeBound value with
    | .ok cl => .ok (.contentLength cl)
    | .error msg => .error msg
  else .ok (.other key value)

/-- Function `parse_header_from_wire` (src/parsing/request_parser.rs lines
145-155): split on the first `:`, requiring two parts, and trim both the
name and the value. -/
def parse_header_from_wire (content : String) : Except String Header :=
  match rustSplitn2 ':' content with
  | [p0, p1] => parse_header_from_key_value (trim p0) (trim p1)
  | _ => .error "Invalid header, expected a colon in header to deliminate key: value"

/-- Header loop of `parse_http_request` (src/parsing/request_parser.rs
lines 16-31): read and trim lines until an empty one, parse each header,
record the latest `Content-Length` value, and insert the key/value pair
into the map.  `fuel` bounds the recursion as in the `Models` loop. -/
def parseLoopF :
    Nat → List (String × String) → Nat → List Char →
    Except String (List (String × String) × Nat × List Char)
  | 0, _, _, _ => .error "header loop out of fuel"
  | fuel + 1, headers, content_length, s =>
    let p := readLine s
    let header := trim (String.mk p.1)
    if header = "" then .ok (headers, content_length, p.2)
    else
      match parse_header_from_wire header with
      | .error e => .error e
      | .ok h =>
        let cl2 := match h with
          | .contentLength n => n
          | _ => content_length
        let kv := h.to_key_value
        parseLoopF fuel (listInsert kv.1 kv.2 headers) cl2 p.2

/-- Struct `HttpRequest` as used by src/parsing/request_parser.rs lines
46-50: request line, header map, optional body. -/
structure HttpRequest where
  request_line : RequestLine
  headers : List (String × String)
  body : Option String
deriving DecidableEq, Repr

/-- Function `parse_http_request` (src/parsing/request_parser.rs lines
6-51): parse the trimmed first line, run the header loop with
`content_length` starting at 0, then read a body of `content_length`
characters only when that count is positive. -/
def parse_http_request (s : String) : Except String HttpRequest := do
  let p := readLine s.data
  let request_line ← parse_request_line (trim (String.mk p.1))
  let (headers, content_length, rest) ← parseLoopF (p.2.length + 1) [] 0 p.2
  let body := if content_length > 0
    then some (String.mk (rest.take content_length))
    else none
  .ok ⟨request_line, headers, body⟩

end Parsing

/-- Big-endian decimal accumulation, used to relate `parseDigitsE` to
`Nat.digits`. -/
def listVal : Nat → List Nat → Nat
  | a, [] => a
  | a, d :: ds => listVal (10 * a + d) ds

end RustHttp

deriving instance DecidableEq for Except

namespace RustHttp

lemma listVal_le : ∀ (ds : List Nat) (a : Nat), a ≤ listVal a ds := by
  intro ds
  induction ds with
  | nil => intro a; simp [listVal]
  | cons d ds ih =>
    intro a
    calc a ≤ 10 * a + d := by omega
    _ ≤ listVal (10 * a + d) ds := ih _

lemma listVal_append : ∀ (ds : List Nat) (a d : Nat),
    listVal a (ds ++ [d]) = 10 * listVal a ds + d := by
  intro ds
  induction ds with
  | nil => intro a d; simp [listVal]
  | cons e ds ih => intro a d; simp [listVal, ih]

lemma listVal_reverse_ofDigits : ∀ L : List Nat, listVal 0 L.reverse = Nat.ofDigits 10 L := by
  intro L
  induction L with
  | nil => simp [listVal]
  | cons d L ih =>
    rw [List.reverse_cons, listVal_append, ih, Nat.ofDigits_cons]
    omega

lemma listVal_digits (n : Nat) : listVal 0 ((Nat.digits 10 n).reverse) = n := by
  rw [listVal_reverse_ofDigits, Nat.ofDigits_digits]

lemma digitVal_digitChar {d : Nat} (h : d < 10) : digitVal (digitChar d) = some d := by
  interval_cases d <;> decide

lemma digitChar_ne_plus (d : Nat) : digitChar d ≠ '+' := by
  unfold digitChar
  split <;> decide

lemma digitChar_ne_colon (d : Nat) : digitChar d ≠ ':' := by
  unfold digitChar
  split <;> decide

lemma natRenderList_no_colon (n : Nat) : ':' ∉ natRenderList n := by
  unfold natRenderList
  split
  · decide
  · intro hmem
    rw [List.mem_map] at hmem
    obtain ⟨d, _, he⟩ := hmem
    exact digitChar_ne_colon d he

lemma parseDigitsE_ok_lt {bound : Nat} :
    ∀ (l : List Char) (acc n : Nat), acc < bound →
      parseDigitsE bound acc l = .ok n → n < bound := by
  intro l
  induction l with
  | nil =>
    intro acc n ha hp
    unfold parseDigitsE at hp
    cases hp
    exact ha
  | cons c cs ih =>
    intro acc n ha hp
    unfold parseDigitsE at hp
    rcases hd : digitVal c with _ | d <;> rw [hd] at hp <;> dsimp only at hp
    · cases hp
    · by_cases hb : bound ≤ 10 * acc + d
      · rw [if_pos hb] at hp; cases hp
      · rw [if_neg hb] at hp
        exact ih (10 * acc + d) n (by omega) hp

lemma rustParseNat_ok_lt {bound : Nat} {s : String} {n : Nat} (h0 : 0 < bound)
    (hp : rustParseNat bound s = .ok n) : n < bound := by
  unfold rustParseNat at hp
  rcases hsd : s.data with _ | ⟨c, cs⟩ <;> rw [hsd] at hp <;> dsimp only at hp
  · cases hp
  · by_cases hc : c = '+'
    · rw [if_pos hc] at hp
      rcases cs with _ | ⟨c2, cs2⟩ <;> dsimp only at hp
      · cases hp
      · exact parseDigitsE_ok_lt _ 0 n h0 hp
    · rw [if_neg hc] at hp
      exact parseDigitsE_ok_lt _ 0 n h0 hp

lemma parseDigitsE_map_digitChar {bound : Nat} :
    ∀ (ds : List Nat) (acc : Nat), (∀ d ∈ ds, d < 10) → listVal acc ds < bound →
      parseDigitsE bound acc (ds.map digitChar) = .ok (listVal acc ds) := by
  intro ds
  induction ds with
  | nil => intro acc _ _; simp [parseDigitsE, listVal]
  | cons d ds ih =>
    intro acc hds hv
    have hd : d < 10 := hds d (List.mem_cons_self d ds)
    have hi : listVal acc (d :: ds) = listVal (10 * acc + d) ds := rfl
    have hlt : 10 * acc + d < bound := by
      have hle := listVal_le ds (10 * acc + d)
      rw [hi] at hv
      omega
    rw [List.map_cons]
    unfold parseDigitsE
    rw [digitVal_digitChar hd]
    dsimp only
    rw [if_neg (by omega)]
    rw [hi] at hv ⊢
    exact ih (10 * acc + d) (fun e he => hds e (List.mem_cons_of_mem d he)) hv

lemma natRender_zero : natRender 0 = "0" := by
  decide

lemma natRenderList_pos (n : Nat) (hn : n ≠ 0) :
    ∃ d ds, (Nat.digits 10 n).reverse = d :: ds ∧ d < 10 ∧ (∀ e ∈ ds, e < 10) ∧
      natRenderList n = digitChar d :: ds.map digitChar := by
  have hne : Nat.digits 10 n ≠ [] := Nat.digits_ne_nil_iff_ne_zero.mpr hn
  have hrne : (Nat.digits 10 n).reverse ≠ [] := by
    simpa using hne
  rcases hr : (Nat.digits 10 n).reverse with _ | ⟨d, ds⟩
  · exact absurd hr hrne
  have hmem : ∀ e ∈ (Nat.digits 10 n).reverse, e < 10 := by
    intro e he
    rw [List.mem_reverse] at he
    exact Nat.digits_lt_base (by norm_num) he
  refine ⟨d, ds, rfl, hmem d (by rw [hr]; exact List.mem_cons_self d ds), ?_, ?_⟩
  · intro e he
    exact hmem e (by rw [hr]; exact List.mem_cons_of_mem d he)
  · unfold natRenderList
    rw [if_neg hn, hr, List.map_cons]

lemma rustParseNat_natRender {bound n : Nat} (h : n < bound) :
    rustParseNat bound (natRender n) = .ok n := by
  by_cases hn : n = 0
  · subst hn
    have h0 : (0 : Nat) < bound := h
    unfold rustParseNat natRender natRenderList
    rw [if_pos rfl]
    dsimp only
    rw [if_neg (by decide : ¬ ('0' = '+'))]
    unfold parseDigitsE
    rw [show digitVal '0' = some 0 from by decide]
    dsimp only
    rw [if_neg (by omega)]
    rfl
  · obtain ⟨d, ds, hr, hd10, hds10, hl⟩ := natRenderList_pos n hn
    have hval : listVal 0 (d :: ds) = n := by
      have hld := listVal_digits n
      rw [hr] at hld
      exact hld
    have hall : ∀ e ∈ d :: ds, e < 10 := by
      intro e he
      rcases List.mem_cons.mp he with h1 | h2
      · subst h1; exact hd10
      · exact hds10 e h2
    have hrun : parseDigitsE bound 0 ((d :: ds).map digitChar) = .ok n := by
      have hpe := parseDigitsE_map_digitChar (d :: ds) 0 hall (by rw [hval]; exact h)
      rw [hval] at hpe
      exact hpe
    unfold rustParseNat natRender
    rw [hl]
    dsimp only
    rw [if_neg (digitChar_ne_plus d), ← List.map_cons]
    exact hrun

lemma splitAux_not_mem {c : Char} : ∀ {l : List Char}, c ∉ l → splitAux c l = (l, []) := by
  intro l
  induction l with
  | nil => intro _; rfl
  | cons x xs ih =>
    intro h
    have hx : ¬ (x = c) := fun e => h (by rw [e]; exact List.mem_cons_self c xs)
    have hxs : c ∉ xs := fun e => h (List.mem_cons_of_mem x e)
    unfold splitAux
    rw [ih hxs]
    simp [hx]

lemma splitAux_append {c : Char} : ∀ {l1 : List Char} (l2 : List Char), c ∉ l1 →
    splitAux c (l1 ++ c :: l2) = (l1, (splitAux c l2).1 :: (splitAux c l2).2) := by
  intro l1
  induction l1 with
  | nil =>
    intro l2 _
    show splitAux c (c :: l2) = _
    simp only [splitAux]
    simp
  | cons x xs ih =>
    intro l2 h
    have hx : ¬ (x = c) := fun e => h (by rw [e]; exact List.mem_cons_self c xs)
    have hxs : c ∉ xs := fun e => h (List.mem_cons_of_mem x e)
    show splitAux c (x :: (xs ++ c :: l2)) = _
    simp only [splitAux]
    rw [if_neg hx, ih l2 hxs]

lemma splitAux_no_sep {c : Char} : ∀ (l : List Char) (part : List Char),
    (part = (splitAux c l).1 ∨ part ∈ (splitAux c l).2) → c ∉ part := by
  intro l
  induction l with
  | nil =>
    intro part h
    rcases h with h | h
    · rw [show (splitAux c ([] : List Char)).1 = [] from rfl] at h
      rw [h]; exact List.not_mem_nil c
    · rw [show (splitAux c ([] : List Char)).2 = [] from rfl] at h
      exact absurd h (List.not_mem_nil part)
  | cons x xs ih =>
    intro part h
    by_cases hx : x = c
    · unfold splitAux at h
      rw [if_pos hx] at h
      rcases h with h | h
      · rw [h]; exact List.not_mem_nil c
      · rcases List.mem_cons.mp h with h2 | h2
        · exact ih part (Or.inl h2)
        · exact ih part (Or.inr h2)
    · unfold splitAux at h
      rw [if_neg hx] at h
      rcases h with h | h
      · rw [h]
        intro hmem
        rcases List.mem_cons.mp hmem with h2 | h2
        · exact hx h2.symm
        · exact ih _ (Or.inl rfl) h2
      · exact ih part (Or.inr h)

lemma splitFirstAux_not_mem {c : Char} : ∀ {l : List Char}, c ∉ l → splitFirstAux c l = none := by
  intro l
  induction l with
  | nil => intro _; rfl
  | cons x xs ih =>
    intro h
    have hx : ¬ (x = c) := fun e => h (by rw [e]; exact List.mem_cons_self c xs)
    have hxs : c ∉ xs := fun e => h (List.mem_cons_of_mem x e)
    unfold splitFirstAux
    rw [if_neg hx, ih hxs]
    rfl

lemma splitFirstAux_append {c : Char} : ∀ {l1 : List Char} (l2 : List Char), c ∉ l1 →
    splitFirstAux c (l1 ++ c :: l2) = some (l1, l2) := by
  intro l1
  induction l1 with
  | nil =>
    intro l2 _
    show splitFirstAux c (c :: l2) = _
    unfold splitFirstAux
    simp
  | cons x xs ih =>
    intro l2 h
    have hx : ¬ (x = c) := fun e => h (by rw [e]; exact List.mem_cons_self c xs)
    have hxs : c ∉ xs := fun e => h (List.mem_cons_of_mem x e)
    show splitFirstAux c (x :: (xs ++ c :: l2)) = _
    unfold splitFirstAux
    rw [if_neg hx, ih l2 hxs]
    rfl

lemma rustSplitn2_no_sep {c : Char} {l : String} (h : c ∉ l.data) :
    rustSplitn2 c l = [l] := by
  unfold rustSplitn2
  rw [splitFirstAux_not_mem h]

lemma rustSplitn2_append {c : Char} (pre post : String) (h : c ∉ pre.data) :
    rustSplitn2 c (String.mk (pre.data ++ c :: post.data)) = [pre, post] := by
  unfold rustSplitn2
  rw [show (String.mk (pre.data ++ c :: post.data)).data = pre.data ++ c :: post.data from rfl]
  rw [splitFirstAux_append post.data h]

lemma u32Bound_pos : 0 < u32Bound := by decide

lemma parse_host_ok_inv {x : String} {h : Host} (hp : parse_host_from_wire x = .ok h) :
    ':' ∉ h.hostname.data ∧ h.port < u32Bound := by
  unfold parse_host_from_wire splitOnStr splitOnChar at hp
  rcases e2 : (splitAux ':' x.data).2 with _ | ⟨p1, tl⟩
  · rw [e2] at hp
    dsimp only [List.map] at hp
    injection hp with hh
    subst hh
    refine ⟨splitAux_no_sep x.data _ (Or.inl rfl), ?_⟩
    show (80 : Nat) < u32Bound
    decide
  · rcases tl with _ | ⟨p2, tl2⟩
    · rw [e2] at hp
      dsimp only [List.map] at hp
      rcases er : rustParseNat u32Bound (String.mk p1) with msg | n <;> rw [er] at hp <;>
        dsimp only at hp
      · cases hp
      · injection hp with hh
        subst hh
        refine ⟨splitAux_no_sep x.data _ (Or.inl rfl), ?_⟩
        exact rustParseNat_ok_lt u32Bound_pos er
    · rw [e2] at hp
      dsimp only [List.map] at hp
      cases hp

/-- Inversion for successful host parses used by downstream lemmas: the
hostname carries no colon and the port fits `u32`. -/
lemma parse_host_reparse {h : Host} (hc : ':' ∉ h.hostname.data) (hb : h.port < u32Bound) :
    parse_host_from_wire (hostRender h) = .ok h := by
  unfold parse_host_from_wire splitOnStr splitOnChar
  rw [show (hostRender h).data = h.hostname.data ++ ':' :: natRenderList h.port from rfl]
  rw [splitAux_append (natRenderList h.port) hc,
    splitAux_not_mem (natRenderList_no_colon h.port)]
  dsimp only [List.map]
  rw [show String.mk h.hostname.data = h.hostname from rfl]
  rw [show (String.mk (natRenderList h.port)) = natRender h.port from rfl]
  rw [rustParseNat_natRender hb]

lemma entityHeader_fromStr_isSome (key : String) :
    ∃ e, Models.EntityHeader.fromStr key = some e :=
  ⟨_, rfl⟩

lemma classifyHeader_ne_unclassified (key : String) :
    Models.classifyHeader key ≠ Models.HeaderClass.unclassified := by
  unfold Models.classifyHeader
  rcases h1 : Models.RequestHeader.fromStr key with _ | r
  · rcases h2 : Models.GeneralHeader.fromStr key with _ | g
    · dsimp only
      rw [show Models.EntityHeader.fromStr key = some _ from rfl]
      simp
    · simp
  · simp

lemma classifyInsert_ne_none (key value : String) (rh : Models.RequestHeaders)
    (gh : Models.GeneralHeaders) (eh : Models.EntityHeaders) :
    Models.classifyInsert key value rh gh eh ≠ none := by
  unfold Models.classifyInsert
  rcases hc : Models.classifyHeader key with r | g | e | _
  · simp
  · simp
  · simp
  · exact absurd hc (classifyHeader_ne_unclassified key)

lemma processHeaderLine_ne_none (header : String) (rh : Models.RequestHeaders)
    (gh : Models.GeneralHeaders) (eh : Models.EntityHeaders) :
    Models.processHeaderLine header rh gh eh ≠ none := by
  unfold Models.processHeaderLine
  rcases hs : rustSplitn2 ':' header with _ | ⟨a, _ | ⟨b, _ | ⟨c, t⟩⟩⟩
  · simp
  · simp
  · dsimp only
    exact classifyInsert_ne_none a (trim b) rh gh eh
  · simp

lemma parseHeadersLoopF_ne_none : ∀ (fuel : Nat) (rh : Models.RequestHeaders)
    (gh : Models.GeneralHeaders) (eh : Models.EntityHeaders) (s : List Char),
    Models.parseHeadersLoopF fuel rh gh eh s ≠ none := by
  intro fuel
  induction fuel with
  | zero => intro rh gh eh s; simp [Models.parseHeadersLoopF]
  | succ fuel ih =>
    intro rh gh eh s
    unfold Models.parseHeadersLoopF
    dsimp only
    by_cases he : trim (String.mk (readLine s).1) = ""
    · rw [if_pos he]; simp
    · rw [if_neg he]
      rcases hp : Models.processHeaderLine (trim (String.mk (readLine s).1)) rh gh eh
        with _ | ⟨e | ⟨⟨rh2, gh2, eh2⟩⟩⟩
      · exact absurd hp (processHeaderLine_ne_none _ rh gh eh)
      · simp
      · exact ih rh2 gh2 eh2 (readLine s).2

lemma models_parse_ne_none (s : String) : Models.parse_http_request s ≠ none := by
  unfold Models.parse_http_request
  dsimp only
  rcases hr : parse_request_line (trim (String.mk (readLine s.data).1)) with e | rl
  · simp
  · dsimp only
    rcases hl : Models.parseHeadersLoopF ((readLine s.data).2.length + 1)
        Models.RequestHeaders.new Models.GeneralHeaders.new Models.EntityHeaders.new
        (readLine s.data).2 with _ | ⟨e | ⟨⟨rh, gh, eh, rest⟩⟩⟩
    · exact absurd hl (parseHeadersLoopF_ne_none _ _ _ _ _)
    · simp
    · simp

lemma listInsert_listInsert (k v1 v2 : String) (m : List (String × String)) :
    listInsert k v2 (listInsert k v1 m) = listInsert k v2 m := by
  unfold listInsert
  rw [List.filter_cons]
  simp only [decide_not]
  rw [List.filter_filter]
  simp

lemma listInsert_unique (k v : String) (m : List (String × String)) :
    ((listInsert k v m).filter (fun p => p.1 = k)).length = 1 := by
  unfold listInsert
  rw [List.filter_cons]
  simp only [decide_not]
  rw [List.filter_filter]
  simp

lemma requestHeaders_insert_insert {c c1 c2 : Models.RequestHeaders}
    {k : Models.RequestHeader} {v1 v2 : String}
    (h1 : c.insert k v1 = .ok c1) (h2 : c1.insert k v2 = .ok c2) :
    c.insert k v2 = .ok c2 := by
  cases k <;> simp only [Models.RequestHeaders.insert] at h1 h2 ⊢ <;>
  first
  | (injection h1 with e1
     injection h2 with e2
     subst e1
     subst e2
     rfl)
  | (rcases hp1 : parse_host_from_wire v1 with e | a
     · rw [hp1] at h1
       dsimp only at h1
       exact Except.noConfusion h1
     · rw [hp1] at h1
       dsimp only at h1
       rcases hp2 : parse_host_from_wire v2 with f | b
       · rw [hp2] at h2
         dsimp only at h2
         exact Except.noConfusion h2
       · rw [hp2] at h2
         dsimp only at h2 ⊢
         injection h1 with e1
         injection h2 with e2
         subst e1
         subst e2
         rfl)

lemma generalHeaders_insert_insert {c c1 c2 : Models.GeneralHeaders}
    {k : Models.GeneralHeader} {v1 v2 : String}
    (h1 : c.insert k v1 = .ok c1) (h2 : c1.insert k v2 = .ok c2) :
    c.insert k v2 = .ok c2 := by
  cases k <;> simp only [Models.GeneralHeaders.insert] at h1 h2 ⊢ <;>
    (injection h1 with e1
     injection h2 with e2
     subst e1
     subst e2
     rfl)

lemma entityHeaders_insert_insert {c c1 c2 : Models.EntityHeaders}
    {k : Models.EntityHeader} {v1 v2 : String}
    (h1 : c.insert k v1 = .ok c1) (h2 : c1.insert k v2 = .ok c2) :
    c.insert k v2 = .ok c2 := by
  cases k <;> simp only [Models.EntityHeaders.insert] at h1 h2 ⊢ <;>
  first
  | (injection h1 with e1
     injection h2 with e2
     subst e1
     subst e2
     rfl)
  | (rcases hp1 : rustParseNat usizeBound v1 with e | a
     · rw [hp1] at h1
       dsimp only at h1
       exact Except.noConfusion h1
     · rw [hp1] at h1
       dsimp only at h1
       rcases hp2 : rustParseNat usizeBound v2 with f | b
       · rw [hp2] at h2
         dsimp only at h2
         exact Except.noConfusion h2
       · rw [hp2] at h2
         dsimp only at h2 ⊢
         injection h1 with e1
         injection h2 with e2
         subst e1
         subst e2
         rfl)
  | (injection h1 with e1
     injection h2 with e2
     subst e1
     subst e2
     rw [listInsert_listInsert])

lemma responseHeaders_insert_insert {c c1 c2 : Models.ResponseHeaders}
    {k : Models.ResponseHeader} {v1 v2 : String}
    (h1 : c.insert k v1 = .ok c1) (h2 : c1.insert k v2 = .ok c2) :
    c.insert k v2 = .ok c2 := by
  cases k <;> simp only [Models.ResponseHeaders.insert] at h1 h2 ⊢ <;>
    (injection h1 with e1
     injection h2 with e2
     subst e1
     subst e2
     rfl)

/-- C2, counterexample: the standard token `OPTIONS` does not map to the
standard variant; the source matches the misspelt literal `OPTION`, so
`OPTIONS` falls through to the extension branch. -/
theorem options_token_parses_as_extension :
    parse_method_from_wire "OPTIONS" = .ok (Method.EXTENSION "OPTIONS") ∧
    parse_method_from_wire "OPTIONS" ≠ .ok Method.OPTION := by
  refine ⟨by decide, by decide⟩

/-- C2, amended: the seven tokens the source actually matches are `OPTION`
(not `OPTIONS`), `GET`, `POST`, `PUT`, `DELETE`, `TRACE`, `CONNECT`; every
other all-ASCII-alphabetic token is returned verbatim as `EXTENSION`; and
every token containing a non-alphabetic character fails with the
invalid-extension-method error. -/
theorem method_parse_amended :
    (parse_method_from_wire "OPTION" = .ok Method.OPTION ∧
     parse_method_from_wire "GET" = .ok Method.GET ∧
     parse_method_from_wire "POST" = .ok Method.POST ∧
     parse_method_from_wire "PUT" = .ok Method.PUT ∧
     parse_method_from_wire "DELETE" = .ok Method.DELETE ∧
     parse_method_from_wire "TRACE" = .ok Method.TRACE ∧
     parse_method_from_wire "CONNECT" = .ok Method.CONNECT) ∧
    (∀ t : String, is_valid_extension_method t = true →
      t ≠ "OPTION" → t ≠ "GET" → t ≠ "POST" → t ≠ "PUT" → t ≠ "DELETE" →
      t ≠ "TRACE" → t ≠ "CONNECT" →
      parse_method_from_wire t = .ok (Method.EXTENSION t)) ∧
    (∀ t : String, is_valid_extension_method t = false →
      parse_method_from_wire t = .error ("Invalid Extension Method: " ++ t)) := by
  refine ⟨⟨by decide, by decide, by decide, by decide, by decide, by decide, by decide⟩,
    ?_, ?_⟩
  · intro t hval h1 h2 h3 h4 h5 h6 h7
    unfold parse_method_from_wire
    rw [if_neg h1, if_neg h2, if_neg h3, if_neg h4, if_neg h5, if_neg h6, if_neg h7,
      if_pos hval]
  · intro t hval
    have h1 : t ≠ "OPTION" := fun e => by rw [e] at hval; exact absurd hval (by decide)
    have h2 : t ≠ "GET" := fun e => by rw [e] at hval; exact absurd hval (by decide)
    have h3 : t ≠ "POST" := fun e => by rw [e] at hval; exact absurd hval (by decide)
    have h4 : t ≠ "PUT" := fun e => by rw [e] at hval; exact absurd hval (by decide)
    have h5 : t ≠ "DELETE" := fun e => by rw [e] at hval; exact absurd hval (by decide)
    have h6 : t ≠ "TRACE" := fun e => by rw [e] at hval; exact absurd hval (by decide)
    have h7 : t ≠ "CONNECT" := fun e => by rw [e] at hval; exact absurd hval (by decide)
    unfold parse_method_from_wire
    rw [if_neg h1, if_neg h2, if_neg h3, if_neg h4, if_neg h5, if_neg h6, if_neg h7,
      if_neg (by rw [hval]; exact Bool.false_ne_true)]

/-- C2, witness: the amended theorem applied to the extension token `PATCH`
and the invalid token `G3T`. -/
theorem method_parse_amended_witness :
    (is_valid_extension_method "PATCH" = true ∧
      parse_method_from_wire "PATCH" = .ok (Method.EXTENSION "PATCH")) ∧
    (is_valid_extension_method "G3T" = false ∧
      parse_method_from_wire "G3T" = .error ("Invalid Extension Method: " ++ "G3T")) :=
  ⟨⟨by decide, method_parse_amended.2.1 "PATCH" (by decide) (by decide) (by decide)
      (by decide) (by decide) (by decide) (by decide) (by decide)⟩,
   ⟨by decide, method_parse_amended.2.2 "G3T" (by decide)⟩⟩

/-- C3, counterexample: on the empty stream the parse fails with the same
error value that the malformed request line `"GET /"` produces — the
token-count error — so the failure is not a distinct `UnexpectedEof` error
kind (no such kind exists in the source; errors are plain strings). -/
theorem empty_stream_error_is_malformed_request_line :
    Models.parse_http_request ""
      = some (.error "Expecting 3 values in request line: Method SP URI SP HTTP/Version") ∧
    parse_request_line "GET /"
      = .error "Expecting 3 values in request line: Method SP URI SP HTTP/Version" := by
  refine ⟨by decide, by decide⟩

/-- C3, amended: for every stream whose first line is empty after trimming
(the empty stream and a stream that ends at once included), the parse of
src/models.rs fails, but with the malformed-request-line error — the same
error kind produced by any wrong token count — not a distinct
`UnexpectedEof` kind. -/
theorem empty_first_line_fails_with_malformed_request_line :
    ∀ s : String, trim (String.mk (readLine s.data).1) = "" →
      Models.parse_http_request s
        = some (.error "Expecting 3 values in request line: Method SP URI SP HTTP/Version") := by
  intro s h
  unfold Models.parse_http_request
  dsimp only
  rw [h]
  rw [show parse_request_line ""
    = Except.error "Expecting 3 values in request line: Method SP URI SP HTTP/Version"
    from by decide]

/-- C3, witness: the amended theorem applied to the empty stream. -/
theorem empty_first_line_fails_witness :
    trim (String.mk (readLine "".data).1) = "" ∧
    Models.parse_http_request ""
      = some (.error "Expecting 3 values in request line: Method SP URI SP HTTP/Version") :=
  ⟨by decide, empty_first_line_fails_with_malformed_request_line "" (by decide)⟩

/-- C6: at the failing input with header `Content-Length: abc`, the parser
of src/models.rs does not abort: its entity table only recognizes the
spelling `ContentLength`, so the malformed header is stored verbatim in the
extension bucket and an `HttpRequest` is returned.  The recognized spelling
(`EntityHeaders.insert` with the `ContentLength` key) and the parser of
src/parsing/request_parser.rs both fail as the claim expects. -/
theorem content_length_abc_models_accepts_parsing_aborts :
    Models.okSucceeds (Models.parse_http_request "GET / HTTP/1.1\nContent-Length: abc\n\n")
      = true ∧
    Models.extensionsOf (Models.parse_http_request "GET / HTTP/1.1\nContent-Length: abc\n\n")
      = some [("Content-Length", "abc")] ∧
    Models.EntityHeaders.new.insert Models.EntityHeader.ContentLength "abc"
      = .error "invalid digit found in string" ∧
    Parsing.parse_http_request "GET / HTTP/1.1\nContent-Length: abc\n\n"
      = .error "invalid digit found in string" := by
  refine ⟨by decide, by decide, by decide, by decide⟩

/-- C10: the empty token is accepted by the all-alphabetic check vacuously,
so method parsing returns `EXTENSION ""`, and the request line
`" / HTTP/1.1"` (empty first field) parses with that empty extension
method. -/
theorem empty_method_token_is_extension :
    parse_method_from_wire "" = .ok (Method.EXTENSION "") ∧
    parse_request_line " / HTTP/1.1"
      = .ok ⟨Method.EXTENSION "", "/", 1, 1⟩ := by
  refine ⟨by decide, by decide⟩

/-- C4, counterexample: in the header loop of src/models.rs the name part
is not trimmed: the line `Host : example.com` yields the key `"Host "`
(trailing space kept), which the Request table rejects, so the pair lands
in the entity extension bucket instead of the `host` slot. -/
theorem models_header_name_keeps_trailing_space :
    Models.extensionsOf (Models.parse_http_request "GET / HTTP/1.1\nHost : example.com\n\n")
      = some [("Host ", "example.com")] ∧
    Models.hostOf (Models.parse_http_request "GET / HTTP/1.1\nHost : example.com\n\n")
      = some none := by
  refine ⟨by decide, by decide⟩

/-- C4, amended: both header splitters divide the line at the first colon
only and fail with the malformed-header error when no colon is present;
`parse_header_from_wire` of src/parsing/request_parser.rs trims both the
resulting name and value, while the loop of src/models.rs (which trims the
line as a whole first) passes the name part to classification verbatim —
without removing its trailing whitespace — and trims only the value. -/
theorem header_split_amended :
    (∀ pre post : String, ':' ∉ pre.data →
      Parsing.parse_header_from_wire (String.mk (pre.data ++ ':' :: post.data))
        = Parsing.parse_header_from_key_value (trim pre) (trim post)) ∧
    (∀ l : String, ':' ∉ l.data →
      Parsing.parse_header_from_wire l
        = .error "Invalid header, expected a colon in header to deliminate key: value") ∧
    (∀ (pre post : String) (rh : Models.RequestHeaders) (gh : Models.GeneralHeaders)
        (eh : Models.EntityHeaders), ':' ∉ pre.data →
      Models.processHeaderLine (String.mk (pre.data ++ ':' :: post.data)) rh gh eh
        = Models.classifyInsert pre (trim post) rh gh eh) ∧
    (∀ (l : String) (rh : Models.RequestHeaders) (gh : Models.GeneralHeaders)
        (eh : Models.EntityHeaders), ':' ∉ l.data →
      Models.processHeaderLine l rh gh eh
        = some (.error "Expecting 'key: value' in header")) := by
  refine ⟨?_, ?_, ?_, ?_⟩
  · intro pre post h
    unfold Parsing.parse_header_from_wire
    rw [rustSplitn2_append pre post h]
  · intro l h
    unfold Parsing.parse_header_from_wire
    rw [rustSplitn2_no_sep h]
  · intro pre post rh gh eh h
    unfold Models.processHeaderLine
    rw [rustSplitn2_append pre post h]
  · intro l rh gh eh h
    unfold Models.processHeaderLine
    rw [rustSplitn2_no_sep h]

/-- C4, witness: the amended theorem applied to concrete header lines, one
per clause. -/
theorem header_split_amended_witness :
    (':' ∉ "Key".data ∧
      Parsing.parse_header_from_wire (String.mk ("Key".data ++ ':' :: " a:b ".data))
        = Parsing.parse_header_from_key_value (trim "Key") (trim " a:b ")) ∧
    (':' ∉ "NoColon".data ∧
      Parsing.parse_header_from_wire "NoColon"
        = .error "Invalid header, expected a colon in header to deliminate key: value") ∧
    (':' ∉ "Host ".data ∧
      Models.processHeaderLine (String.mk ("Host ".data ++ ':' :: " example.com".data))
          Models.RequestHeaders.new Models.GeneralHeaders.new Models.EntityHeaders.new
        = Models.classifyInsert "Host " (trim " example.com")
          Models.RequestHeaders.new Models.GeneralHeaders.new Models.EntityHeaders.new) ∧
    (':' ∉ "Broken".data ∧
      Models.processHeaderLine "Broken" Models.RequestHeaders.new
          Models.GeneralHeaders.new Models.EntityHeaders.new
        = some (.error "Expecting 'key: value' in header")) :=
  ⟨⟨by decide, header_split_amended.1 "Key" " a:b " (by decide)⟩,
   ⟨by decide, header_split_amended.2.1 "NoColon" (by decide)⟩,
   ⟨by decide, header_split_amended.2.2.1 "Host " " example.com" _ _ _ (by decide)⟩,
   ⟨by decide, header_split_amended.2.2.2 "Broken" _ _ _ (by decide)⟩⟩

/-- C5: the Entity table is total (`EntityHeader::from` always returns
`Some`, its `Extension` variant catching every name), so the classification
chain Request-then-General-then-Entity never reaches the `unclassified`
outcome, the loop body never takes its `panic!` branch, and the whole
parser of src/models.rs never panics on any input stream. -/
theorem classification_never_fails :
    (∀ key : String, ∃ e, Models.EntityHeader.fromStr key = some e) ∧
    (∀ key : String, Models.classifyHeader key ≠ Models.HeaderClass.unclassified) ∧
    (∀ (header : String) (rh : Models.RequestHeaders) (gh : Models.GeneralHeaders)
        (eh : Models.EntityHeaders),
      Models.processHeaderLine header rh gh eh ≠ none) ∧
    (∀ s : String, Models.parse_http_request s ≠ none) :=
  ⟨entityHeader_fromStr_isSome, classifyHeader_ne_unclassified,
   processHeaderLine_ne_none, models_parse_ne_none⟩

/-- C7: `parse_request_line` maps `"GET /index.html HTTP/1.1"` to method
`GET`, uri `/index.html`, version 1.1, and fails with the
malformed-request-line error on every line whose split on single spaces
does not have exactly three fields. -/
theorem request_line_parse_spec :
    parse_request_line "GET /index.html HTTP/1.1"
      = .ok ⟨Method.GET, "/index.html", 1, 1⟩ ∧
    (∀ l : String, (splitOnStr ' ' l).length ≠ 3 →
      parse_request_line l
        = .error "Expecting 3 values in request line: Method SP URI SP HTTP/Version") := by
  refine ⟨by decide, ?_⟩
  intro l h
  unfold parse_request_line
  rcases e : splitOnStr ' ' l with _ | ⟨a, _ | ⟨b, _ | ⟨c, _ | ⟨d, t⟩⟩⟩⟩
  · rfl
  · rfl
  · rfl
  · rw [e] at h
    simp at h
  · rfl

/-- C7, witness: the theorem applied to the two-token line `"GET /"`. -/
theorem request_line_parse_spec_witness :
    (splitOnStr ' ' "GET /").length ≠ 3 ∧
    parse_request_line "GET /"
      = .error "Expecting 3 values in request line: Method SP URI SP HTTP/Version" :=
  ⟨by decide, request_line_parse_spec.2 "GET /" (by decide)⟩

/-- C8, counterexample: re-inserting under the `Host` name does not always
return success: after a first valid `Host` value, inserting the unparseable
value `bad:port:extra` under the same name returns an error instead. -/
theorem host_reinsert_invalid_errors :
    (Models.RequestHeaders.new.insert Models.RequestHeader.Host "example.com").bind
      (fun c => c.insert Models.RequestHeader.Host "bad:port:extra")
      = .error "Expected hostname:port or hostname" := by
  decide

/-- C8, amended: whenever two successive insertions under the same
classified key both succeed, the result is exactly that of inserting the
second value alone — the overwrite leaves no trace of the first value — in
each of the four containers; and the extension map keeps a single entry per
key.  (String-valued slots always succeed; the `Host` and `ContentLength`
slots can fail on unparseable values, as the counterexample shows, leaving
the container unchanged.) -/
theorem insert_overwrite_amended :
    (∀ (c c1 c2 : Models.RequestHeaders) (k : Models.RequestHeader) (v1 v2 : String),
      c.insert k v1 = .ok c1 → c1.insert k v2 = .ok c2 → c.insert k v2 = .ok c2) ∧
    (∀ (c c1 c2 : Models.GeneralHeaders) (k : Models.GeneralHeader) (v1 v2 : String),
      c.insert k v1 = .ok c1 → c1.insert k v2 = .ok c2 → c.insert k v2 = .ok c2) ∧
    (∀ (c c1 c2 : Models.EntityHeaders) (k : Models.EntityHeader) (v1 v2 : String),
      c.insert k v1 = .ok c1 → c1.insert k v2 = .ok c2 → c.insert k v2 = .ok c2) ∧
    (∀ (c c1 c2 : Models.ResponseHeaders) (k : Models.ResponseHeader) (v1 v2 : String),
      c.insert k v1 = .ok c1 → c1.insert k v2 = .ok c2 → c.insert k v2 = .ok c2) ∧
    (∀ (m : List (String × String)) (k v : String),
      ((listInsert k v m).filter (fun p => p.1 = k)).length = 1) :=
  ⟨fun _ _ _ _ _ _ => requestHeaders_insert_insert,
   fun _ _ _ _ _ _ => generalHeaders_insert_insert,
   fun _ _ _ _ _ _ => entityHeaders_insert_insert,
   fun _ _ _ _ _ _ => responseHeaders_insert_insert,
   fun m k v => listInsert_unique k v m⟩

/-- C8, witness: the amended theorem applied to two `Accept` insertions. -/
theorem insert_overwrite_amended_witness :
    Models.RequestHeaders.new.insert Models.RequestHeader.Accept "a"
      = .ok { Models.RequestHeaders.new with accept := some "a" } ∧
    ({ Models.RequestHeaders.new with accept := some "a" } : Models.RequestHeaders).insert
        Models.RequestHeader.Accept "b"
      = .ok { Models.RequestHeaders.new with accept := some "b" } ∧
    Models.RequestHeaders.new.insert Models.RequestHeader.Accept "b"
      = .ok { Models.RequestHeaders.new with accept := some "b" } :=
  ⟨by decide, by decide,
   insert_overwrite_amended.1 Models.RequestHeaders.new
     { Models.RequestHeaders.new with accept := some "a" }
     { Models.RequestHeaders.new with accept := some "b" }
     Models.RequestHeader.Accept "a" "b" (by decide) (by decide)⟩

/-- C9: for every wire string on which host parsing succeeds, the rendered
form is `hostname:port` (the port printed even when it was defaulted to
80), and parsing the rendered string again returns exactly the same host —
same hostname, same effective port. -/
theorem host_render_parse_roundtrip :
    ∀ (x : String) (h : Host), parse_host_from_wire x = .ok h →
      (hostRender h).data = h.hostname.data ++ ':' :: natRenderList h.port ∧
      parse_host_from_wire (hostRender h) = .ok h := by
  intro x h hp
  obtain ⟨hc, hb⟩ := parse_host_ok_inv hp
  exact ⟨rfl, parse_host_reparse hc hb⟩

/-- C9, witness: the round trip at `"example.com"`, whose port is the
default 80. -/
theorem host_render_parse_roundtrip_witness :
    parse_host_from_wire "example.com" = .ok ⟨"example.com", 80⟩ ∧
    parse_host_from_wire (hostRender ⟨"example.com", 80⟩) = .ok ⟨"example.com", 80⟩ :=
  ⟨by decide,
   (host_render_parse_roundtrip "example.com" ⟨"example.com", 80⟩ (by decide)).2⟩

end RustHttp
